import Mathlib

/-!
# Verification of the TPG scoring / leaderboard engine

Shallow embedding of the scoring core of the TPG_stuff repository:
`lib/tpg_utils.py` (`tpg_score`, `custom_tpg_score`, `Medal`, `count_medals`)
and the round/leaderboard pipeline of `Score submissions.py`
(`calc_scores`, `_make_leaderboard`, `_iter_scored_rounds`, `score_kml`).

Modelling conventions:
* Python floats are modelled as exact rationals (`ℚ`).  `Series.round(2)`
  is modelled as rounding `100·x` to the nearest integer (numpy uses
  round-half-even on binary floats; the two agree except on exact
  two-decimal midpoints, which no claim here depends on).
* A pandas `Series` of distances is a `List ℚ`.  Every pandas operation
  used by the source (`rank`, elementwise arithmetic, boolean-mask
  assignment, `groupby(...).mean()`) computes each output element from
  the element's value and the whole column, so the embedding gives each
  pipeline stage as a function of the element value `x` and the column
  `d`.
* IEEE NaN (which arises in the source from `0/0` when a round has a
  single submission, since `players_beaten / (size - 1)` is `0.0 / 0.0`)
  is modelled by `Option ℚ`: `none` is NaN.  NaN propagates through
  arithmetic and `round`, and is replaced by a boolean-mask assignment
  (`scores.loc[...] = c`) exactly as in pandas.
-/

namespace TPG

/-- `Series.round(2)`: round to two decimal places (round-to-nearest on
`100·q`). -/
def round2 (q : ℚ) : ℚ := ((q * 100 + 1 / 2).floor : ℚ) / 100

/-- `distances.rank(method='min', ascending=True)` at value `x`:
one plus the number of entries strictly smaller than `x`. -/
def rank_min (d : List ℚ) (x : ℚ) : ℕ := 1 + d.countP (fun y => y < x)

/-- `distances.rank(method='max', ascending=True)` at value `x`:
the number of entries less than or equal to `x`. -/
def rank_max (d : List ℚ) (x : ℚ) : ℕ := d.countP (fun y => y ≤ x)

/-- `players_beaten = distances.size - distances.rank(method='max')` at value `x`. -/
def players_beaten (d : List ℚ) (x : ℚ) : ℕ := d.length - rank_max d x

/-- `players_beaten_scores = 5000 * (players_beaten / (distances.size - 1))`
at value `x` (numeric value; the `0/0` NaN when `d.length = 1` is handled by
the callers via `Option`). -/
def players_beaten_score (d : List ℚ) (x : ℚ) : ℚ :=
  5000 * ((players_beaten d x : ℚ) / ((d.length : ℚ) - 1))

/-- `distance_scores = 0.25 * (20_000 - distances)`, then `.clip(0)` unless
`allow_negative` (from `tpg_score`). -/
def distance_score (x : ℚ) (allow_negative : Bool) : ℚ :=
  if allow_negative then (1 / 4) * (20000 - x) else max ((1 / 4) * (20000 - x)) 0

/-- The rank bonus of `tpg_score`:
`bonus = distance_ranks.map({1: 3000, 2: 2000, 3: 1000})`, then
`bonus.loc[distances <= 0.1] = 5000`, then `.fillna(0)`.  The 5K mask is
applied after the map, so it wins over the rank bonus. -/
def tpg_bonus (d : List ℚ) (x : ℚ) : ℚ :=
  if x ≤ 1 / 10 then 5000
  else if rank_min d x = 1 then 3000
  else if rank_min d x = 2 then 2000
  else if rank_min d x = 3 then 1000
  else 0

/-- The score of `tpg_score` after the antipode-5K mask
(`scores.loc[distances >= 19_995] = 5000`) but before tie resolution.
The mask assignment replaces whatever value (NaN included) was there. -/
def tpg_score_before_ties (d : List ℚ) (allow_negative : Bool) (x : ℚ) : ℚ :=
  if 19995 ≤ x then 5000
  else distance_score x allow_negative + players_beaten_score d x + tpg_bonus d x

/-- `scores.groupby(distance_ranks)`: the tie group of value `x` is the
sublist of entries equal to `x` (entries share a `method='min'` rank iff
they are equal). -/
def tie_group (d : List ℚ) (x : ℚ) : List ℚ := d.filter (fun y => y = x)

/-- Arithmetic mean of a list (pandas `Series.mean`). -/
def list_mean (l : List ℚ) : ℚ := l.sum / (l.length : ℚ)

/-- Tie resolution of `tpg_score`: each member of a tie group receives the
mean of the group's scores. -/
def tpg_score_after_ties (d : List ℚ) (allow_negative : Bool) (x : ℚ) : ℚ :=
  list_mean ((tie_group d x).map (tpg_score_before_ties d allow_negative))

/-- `tpg_score(distances, allow_negative)` from `lib/tpg_utils.py`.
Each element is `none` (NaN) exactly when the round has a single
submission and the antipode mask does not overwrite the NaN coming from
`players_beaten / 0`; otherwise it is the tie-resolved score rounded to
two decimals. -/
def tpg_score (d : List ℚ) (allow_negative : Bool) : List (Option ℚ) :=
  d.map (fun x =>
    if d.length = 1 ∧ ¬ 19995 ≤ x then none
    else some (round2 (tpg_score_after_ties d allow_negative x)))

/-- `distance_scores = (world_distance - distances)`, then `.clip(0)` unless
`allow_negative` (from `custom_tpg_score`). -/
def custom_distance_score (world_distance x : ℚ) (allow_negative : Bool) : ℚ :=
  if allow_negative then world_distance - x else max (world_distance - x) 0

/-- `(distance_scores + players_beaten_scores) / 2` of `custom_tpg_score`
(numeric value, NaN for a solo round handled by the caller). -/
def custom_raw_score (d : List ℚ) (world_distance : ℚ) (allow_negative : Bool) (x : ℚ) : ℚ :=
  (custom_distance_score world_distance x allow_negative + players_beaten_score d x) / 2

/-- The guard `if fivek_score:` followed by the mask `distances <= fivek_threshold`
of `custom_tpg_score`.  `fivek_score = None` and `fivek_score = 0.0` are both
falsy in Python, so they disable the override. -/
def fivek_applies (fivek_score : Option ℚ) (fivek_threshold : ℚ) (x : ℚ) : Bool :=
  match fivek_score with
  | none => false
  | some fs => decide (fs ≠ 0 ∧ x ≤ fivek_threshold)

/-- The value written for element `x` by `custom_tpg_score` before the final
`.round(2)`: the flat `fivek_score` when the override mask hits, otherwise
the averaged raw score. -/
def custom_value (d : List ℚ) (world_distance : ℚ) (fivek_score : Option ℚ)
    (fivek_threshold : ℚ) (allow_negative : Bool) (x : ℚ) : ℚ :=
  if fivek_applies fivek_score fivek_threshold x then fivek_score.getD 0
  else custom_raw_score d world_distance allow_negative x

/-- `custom_tpg_score(distances, world_distance, fivek_score, fivek_threshold,
allow_negative)` from `lib/tpg_utils.py`.  A solo round's score is NaN
(`none`) unless the 5K override mask overwrote it. -/
def custom_tpg_score (d : List ℚ) (world_distance : ℚ) (fivek_score : Option ℚ)
    (fivek_threshold : ℚ) (allow_negative : Bool) : List (Option ℚ) :=
  d.map (fun x =>
    if d.length = 1 ∧ ¬ fivek_applies fivek_score fivek_threshold x then none
    else some (round2 (custom_value d world_distance fivek_score fivek_threshold allow_negative x)))

/-- `gdf['score'].rank(ascending=False).astype(int)` from `calc_scores`:
pandas' default `method='average'` rank, descending by score, truncated to
int.  The tied group occupying ordinal positions `c+1 … c+t` (where `c`
entries score strictly higher and `t` entries are tied) receives
`⌊c + (t+1)/2⌋`. -/
def rank_average_desc (scores : List ℚ) (s : ℚ) : ℤ :=
  ((scores.countP (fun y => s < y) : ℚ) + ((scores.countP (fun y => y = s) : ℚ) + 1) / 2).floor

/-- The score column produced inside `calc_scores` (on a round with at least
two submissions, so that no NaN arises). -/
def calc_scores_values (d : List ℚ) (world_distance : ℚ) (fivek_score : Option ℚ)
    (fivek_threshold : ℚ) (allow_negative : Bool) : List ℚ :=
  d.map (fun x => round2 (custom_value d world_distance fivek_score fivek_threshold allow_negative x))

/-- The rank that `calc_scores` attaches to the submission at distance `x`. -/
def calc_rank (d : List ℚ) (world_distance : ℚ) (fivek_score : Option ℚ)
    (fivek_threshold : ℚ) (allow_negative : Bool) (x : ℚ) : ℤ :=
  rank_average_desc (calc_scores_values d world_distance fivek_score fivek_threshold allow_negative)
    (round2 (custom_value d world_distance fivek_score fivek_threshold allow_negative x))

/-! ## Leaderboards (`Score submissions.py`)

`score_kml` collects `{round name: {player name: score}}` and
`{round name: {player name: distance}}` dictionaries and hands them to
`_make_leaderboard`.  A season is modelled as a list of rounds, each
round an association list of `(player, value)` pairs (the inner dict:
player names are unique within a round). -/

/-- Lookup of a player's value in one round's `{player: value}` dict. -/
def lookup_player : List (String × ℚ) → String → Option ℚ
  | [], _ => none
  | e :: rest, p => if e.1 = p then some e.2 else lookup_player rest p

/-- Key union in first-appearance order: the row index that
`pandas.DataFrame` builds from a dict of dicts. -/
def unique_keys (l : List String) : List String :=
  l.foldl (fun acc p => if p ∈ acc then acc else acc ++ [p]) []

/-- All players appearing in at least one round, in first-appearance
order (the DataFrame row index). -/
def lb_players (rounds : List (List (String × ℚ))) : List String :=
  unique_keys ((rounds.map (fun r => r.map (fun e => e.1))).flatten)

/-- `df.sum(axis='columns')` for one player: pandas sums with
`skipna=True`, so rounds the player did not play contribute nothing. -/
def lb_total (rounds : List (List (String × ℚ))) (p : String) : ℚ :=
  (rounds.filterMap (fun r => lookup_player r p)).sum

/-- Whether a player has a value in every round (the rows kept by
`df.dropna()`, whose default `how='any'` drops a row with any NaN). -/
def plays_all (rounds : List (List (String × ℚ))) (p : String) : Bool :=
  rounds.all (fun r => (lookup_player r p).isSome)

/-- The leaderboard rows before sorting: `(player, Total, Average)` with
`Average = Total / num_rounds` where `num_rounds = df.columns.size` is
the number of rounds (pandas counts columns, not the rounds the player
actually played). -/
def lb_rows (rounds : List (List (String × ℚ))) (dropna : Bool) : List (String × ℚ × ℚ) :=
  (if dropna then (lb_players rounds).filter (fun p => plays_all rounds p)
   else lb_players rounds).map
    (fun p => (p, lb_total rounds p, lb_total rounds p / (rounds.length : ℚ)))

/-- Descending-by-`Total` comparison used by
`sort_values('Total', ascending=False)`. -/
def total_desc (a b : String × ℚ × ℚ) : Prop := b.2.1 ≤ a.2.1

/-- Ascending-by-`Total` comparison used by
`sort_values('Total', ascending=True)`. -/
def total_asc (a b : String × ℚ × ℚ) : Prop := a.2.1 ≤ b.2.1

instance : DecidableRel total_desc := fun a b => inferInstanceAs (Decidable (b.2.1 ≤ a.2.1))

instance : DecidableRel total_asc := fun a b => inferInstanceAs (Decidable (a.2.1 ≤ b.2.1))

instance : IsTotal (String × ℚ × ℚ) total_desc := ⟨fun a b => le_total b.2.1 a.2.1⟩

instance : IsTrans (String × ℚ × ℚ) total_desc := ⟨fun _ _ _ h1 h2 => le_trans h2 h1⟩

instance : IsTotal (String × ℚ × ℚ) total_asc := ⟨fun a b => le_total a.2.1 b.2.1⟩

instance : IsTrans (String × ℚ × ℚ) total_asc := ⟨fun _ _ _ h1 h2 => le_trans h1 h2⟩

/-- `_make_leaderboard(data, name, ascending=…, dropna=…)`: optionally
drop players with any missing round, attach Total and Average, and sort
by Total.  (The source's sort is pandas `sort_values`; only the
resulting sortedness matters, so a sort is used here.) -/
def make_leaderboard (rounds : List (List (String × ℚ))) (dropna ascending : Bool) :
    List (String × ℚ × ℚ) :=
  if ascending then (lb_rows rounds dropna).insertionSort total_asc
  else (lb_rows rounds dropna).insertionSort total_desc

/-! ## Medals (`lib/tpg_utils.py` `Medal`, `count_medals`; awarding loop in `score_kml`) -/

/-- `Medal(IntEnum)`: Gold = 3, Silver = 2, Bronze = 1. -/
inductive Medal where
  | Gold
  | Silver
  | Bronze
deriving DecidableEq

/-- The `IntEnum` value of a medal. -/
def Medal.points : Medal → ℕ
  | .Gold => 3
  | .Silver => 2
  | .Bronze => 1

/-- `if row['rank'] <= 3: medals[name].append(Medal(4 - row['rank']))`
from `score_kml`.  Ranks produced by `calc_scores` are at least 1, so
`4 - rank ∈ {3, 2, 1}` whenever the guard passes; a rank ≤ 0 would
raise `ValueError` in the source and is modelled as awarding nothing. -/
def medal_of_rank (r : ℤ) : Option Medal :=
  if r ≤ 3 then
    if r = 1 then some .Gold
    else if r = 2 then some .Silver
    else if r = 3 then some .Bronze
    else none
  else none

/-- The medals awarded in one round, given the round's `(player, rank)`
rows. -/
def round_medals (rows : List (String × ℤ)) : List (String × Medal) :=
  rows.filterMap (fun e => (medal_of_rank e.2).map (fun m => (e.1, m)))

/-- `sum(player_medals)`: total medal points of a player's season medals. -/
def medal_points_sum (ms : List Medal) : ℕ := (ms.map Medal.points).sum

/-- Descending-by-`Medal Score` comparison used by
`sort_values('Medal Score', ascending=False)`. -/
def medal_score_desc (a b : String × ℕ × ℕ × ℕ × ℕ) : Prop := b.2.2.2.2 ≤ a.2.2.2.2

instance : DecidableRel medal_score_desc :=
  fun a b => inferInstanceAs (Decidable (b.2.2.2.2 ≤ a.2.2.2.2))

instance : IsTotal (String × ℕ × ℕ × ℕ × ℕ) medal_score_desc :=
  ⟨fun a b => Nat.le_total b.2.2.2.2 a.2.2.2.2⟩

instance : IsTrans (String × ℕ × ℕ × ℕ × ℕ) medal_score_desc :=
  ⟨fun _ _ _ h1 h2 => Nat.le_trans h2 h1⟩

/-- `count_medals(medals)` from `lib/tpg_utils.py`: one row
`(player, Gold count, Silver count, Bronze count, Medal Score)` per
player with at least one medal (a player with an empty medal list never
enters the DataFrame index), sorted descending by Medal Score. -/
def count_medals (medals : List (String × List Medal)) : List (String × ℕ × ℕ × ℕ × ℕ) :=
  ((medals.filter (fun e => ¬ e.2.isEmpty)).map
    (fun e =>
      (e.1, e.2.countP (fun m => m = .Gold), e.2.countP (fun m => m = .Silver),
        e.2.countP (fun m => m = .Bronze), medal_points_sum e.2))).insertionSort medal_score_desc

/-! ## Duplicate players (`_iter_scored_rounds` in `Score submissions.py`) -/

/-- Python dict insertion: replace the value of an existing key in
place, otherwise append the new key. -/
def upsert (l : List (String × α)) (k : String) (v : α) : List (String × α) :=
  if l.any (fun e => e.1 = k) then l.map (fun e => if e.1 = k then (k, v) else e)
  else l ++ [(k, v)]

/-- The key-value pairs of a Python dict built from a list of
`(key, value)` pairs: first-occurrence key order, last value wins. -/
def dict_of_list (l : List (String × α)) : List (String × α) :=
  l.foldl (fun acc e => upsert acc e.1 e.2) []

/-- The `data = {submission.name: {...} for submission in r.submissions}`
comprehension of `_iter_scored_rounds`: the round's rows are keyed by
submission name, so a duplicated name keeps only the last submission
(the `#TODO: Check that there are no duplicates` in the source is
unimplemented; only the CSV path of `main` calls
`set_index('name', verify_integrity=True)`). -/
def iter_round_submissions (subs : List (String × α)) : List (String × α) :=
  dict_of_list subs

/-- `Rat.floor` agrees with the mathematical floor. -/
theorem ratFloor_eq_intFloor (q : ℚ) : q.floor = ⌊q⌋ := by
  rw [Rat.floor_def', ← Rat.floor_def]

/-- `round2` is monotone. -/
theorem round2_mono {q r : ℚ} (h : q ≤ r) : round2 q ≤ round2 r := by
  unfold round2
  rw [ratFloor_eq_intFloor, ratFloor_eq_intFloor]
  have : (⌊q * 100 + 1 / 2⌋ : ℤ) ≤ ⌊r * 100 + 1 / 2⌋ := by
    apply Int.floor_le_floor
    have : q * 100 ≤ r * 100 := by nlinarith
    linarith
  have h2 : ((⌊q * 100 + 1 / 2⌋ : ℤ) : ℚ) ≤ ((⌊r * 100 + 1 / 2⌋ : ℤ) : ℚ) := by
    exact_mod_cast this
  linarith

/-! ## Helper lemmas -/

theorem map_getD_of_lt {α : Type} (f : ℚ → α) (d : List ℚ) (i : ℕ) (a : α) (hi : i < d.length) :
    (d.map f).getD i a = f (d.getD i 0) := by
  rw [List.getD_eq_getElem?_getD, List.getD_eq_getElem?_getD, List.getElem?_map,
    List.getElem?_eq_getElem hi]
  rfl

theorem getD_mem_of_lt {d : List ℚ} {i : ℕ} (hi : i < d.length) : d.getD i 0 ∈ d := by
  rw [List.getD_eq_getElem?_getD, List.getElem?_eq_getElem hi]
  exact List.getElem_mem hi

theorem tie_group_mem {d : List ℚ} {x y : ℚ} (h : y ∈ tie_group d x) : y = x := by
  have h2 := (List.mem_filter.mp h).2
  simpa using h2

theorem tie_group_self_mem {d : List ℚ} {x : ℚ} (h : x ∈ d) : x ∈ tie_group d x :=
  List.mem_filter.mpr ⟨h, by simp⟩

theorem tie_group_length_pos {d : List ℚ} {x : ℚ} (h : x ∈ d) : 0 < (tie_group d x).length :=
  List.length_pos.mpr (List.ne_nil_of_mem (tie_group_self_mem h))

/-- Every pipeline stage of `tpg_score` / `custom_tpg_score` is a function of
the element value, so a tie group's image under any stage is constant. -/
theorem map_tie_group (f : ℚ → ℚ) (d : List ℚ) (x : ℚ) :
    (tie_group d x).map f = List.replicate (tie_group d x).length (f x) := by
  refine List.eq_replicate_iff.mpr ⟨by simp, ?_⟩
  intro b hb
  obtain ⟨y, hy, rfl⟩ := List.mem_map.mp hb
  rw [tie_group_mem hy]

theorem list_mean_replicate {n : ℕ} (hn : 0 < n) (v : ℚ) :
    list_mean (List.replicate n v) = v := by
  unfold list_mean
  rw [List.sum_replicate, List.length_replicate, nsmul_eq_mul]
  have hne : (n : ℚ) ≠ 0 := Nat.cast_ne_zero.mpr hn.ne'
  field_simp

/-- The tie-resolution `groupby(...).mean()` of `tpg_score` is the identity:
every member of a tie group already carries the same score. -/
theorem after_ties_eq_before {d : List ℚ} {x : ℚ} (a : Bool) (hx : x ∈ d) :
    tpg_score_after_ties d a x = tpg_score_before_ties d a x := by
  unfold tpg_score_after_ties
  rw [map_tie_group, list_mean_replicate (tie_group_length_pos hx)]

theorem round2_const_5000 : round2 5000 = 5000 := by
  norm_num [round2, Rat.floor]

/-- Splitting a `countP` of `≤` into strict and equal parts. -/
theorem countP_lt_add_eq (l : List ℚ) (s : ℚ) :
    l.countP (fun y => s < y) + l.countP (fun y => y = s) = l.countP (fun y => s ≤ y) := by
  induction l with
  | nil => simp
  | cons h t ih =>
    simp only [List.countP_cons]
    by_cases h1 : s < h
    · have h2 : ¬ h = s := fun e => absurd (e ▸ h1) (lt_irrefl s)
      have h3 : s ≤ h := le_of_lt h1
      simp [h1, h2, h3]
      omega
    · by_cases h2 : h = s
      · have h3 : s ≤ h := le_of_eq h2.symm
        simp [h1, h2, h3]
        omega
      · have h3 : ¬ s ≤ h := fun hle => h2 (le_antisymm (not_lt.mp h1) hle)
        simp [h1, h2, h3]
        omega

theorem rank_max_mono {d : List ℚ} {x y : ℚ} (h : x ≤ y) : rank_max d x ≤ rank_max d y :=
  List.countP_mono_left fun _ _ hz => decide_eq_true (le_trans (of_decide_eq_true hz) h)

theorem rank_min_mono {d : List ℚ} {x y : ℚ} (h : x ≤ y) : rank_min d x ≤ rank_min d y :=
  Nat.add_le_add_left
    (List.countP_mono_left fun _ _ hz => decide_eq_true (lt_of_lt_of_le (of_decide_eq_true hz) h))
    1

theorem players_beaten_antitone {d : List ℚ} {x y : ℚ} (h : x ≤ y) :
    players_beaten d y ≤ players_beaten d x :=
  Nat.sub_le_sub_left (rank_max_mono h) d.length

theorem players_beaten_score_antitone {d : List ℚ} {x y : ℚ} (hn : 2 ≤ d.length) (h : x ≤ y) :
    players_beaten_score d y ≤ players_beaten_score d x := by
  unfold players_beaten_score
  have hpos : (0 : ℚ) < (d.length : ℚ) - 1 := by
    have h2 : (2 : ℚ) ≤ (d.length : ℚ) := by exact_mod_cast hn
    linarith
  have hpb : (players_beaten d y : ℚ) ≤ (players_beaten d x : ℚ) := by
    exact_mod_cast players_beaten_antitone h
  have hdiv := (div_le_div_iff_of_pos_right hpos).mpr hpb
  nlinarith

theorem distance_score_antitone {x y : ℚ} (a : Bool) (h : x ≤ y) :
    distance_score y a ≤ distance_score x a := by
  unfold distance_score
  split_ifs
  · linarith
  · exact max_le_max (by linarith) le_rfl

theorem custom_distance_score_antitone {w x y : ℚ} (a : Bool) (h : x ≤ y) :
    custom_distance_score w y a ≤ custom_distance_score w x a := by
  unfold custom_distance_score
  split_ifs
  · linarith
  · exact max_le_max (by linarith) le_rfl

theorem tpg_bonus_antitone {d : List ℚ} {x y : ℚ} (h : x ≤ y) :
    tpg_bonus d y ≤ tpg_bonus d x := by
  unfold tpg_bonus
  by_cases hx : x ≤ 1 / 10
  · rw [if_pos hx]
    split_ifs <;> norm_num
  · have hy : ¬ y ≤ 1 / 10 := fun hy => hx (le_trans h hy)
    rw [if_neg hx, if_neg hy]
    have hr : rank_min d x ≤ rank_min d y := rank_min_mono h
    have hx1 : 1 ≤ rank_min d x := by unfold rank_min; omega
    have hy1 : 1 ≤ rank_min d y := by unfold rank_min; omega
    split_ifs <;> first | (exfalso; omega) | norm_num

theorem tpg_before_antitone {d : List ℚ} {x y : ℚ} (a : Bool) (hn : 2 ≤ d.length) (hxy : x ≤ y)
    (hx : ¬ 19995 ≤ x) (hy : ¬ 19995 ≤ y) :
    tpg_score_before_ties d a y ≤ tpg_score_before_ties d a x := by
  unfold tpg_score_before_ties
  rw [if_neg hx, if_neg hy]
  have h1 := distance_score_antitone a hxy
  have h2 := players_beaten_score_antitone hn hxy
  have h3 := tpg_bonus_antitone (d := d) hxy
  linarith

theorem custom_raw_antitone {d : List ℚ} {w x y : ℚ} (a : Bool) (hn : 2 ≤ d.length)
    (hxy : x ≤ y) : custom_raw_score d w a y ≤ custom_raw_score d w a x := by
  unfold custom_raw_score
  have h1 := custom_distance_score_antitone (w := w) a hxy
  have h2 := players_beaten_score_antitone hn hxy
  linarith

/-- The pandas `method='average'` descending rank truncated to int is
antitone in the score, for scores that occur in the column. -/
theorem rank_average_desc_antitone {l : List ℚ} {s1 s2 : ℚ} (h1 : s1 ∈ l) (h2 : s2 ∈ l)
    (h : s2 ≤ s1) : rank_average_desc l s1 ≤ rank_average_desc l s2 := by
  rcases eq_or_lt_of_le h with heq | hlt
  · rw [heq]
  · unfold rank_average_desc
    rw [ratFloor_eq_intFloor, ratFloor_eq_intFloor]
    have ht1 : 1 ≤ l.countP (fun y => y = s1) :=
      List.countP_pos_iff.mpr ⟨s1, h1, by simp⟩
    have ht2 : 1 ≤ l.countP (fun y => y = s2) :=
      List.countP_pos_iff.mpr ⟨s2, h2, by simp⟩
    have hc : l.countP (fun y => s1 < y) + l.countP (fun y => y = s1) ≤
        l.countP (fun y => s2 < y) := by
      rw [countP_lt_add_eq]
      exact List.countP_mono_left fun z _ hz =>
        decide_eq_true (lt_of_lt_of_le hlt (of_decide_eq_true hz))
    have hup : ⌊(l.countP (fun y => s1 < y) : ℚ) + ((l.countP (fun y => y = s1) : ℚ) + 1) / 2⌋ ≤
        (l.countP (fun y => s1 < y) + l.countP (fun y => y = s1) : ℕ) := by
      have hle : (l.countP (fun y => s1 < y) : ℚ) + ((l.countP (fun y => y = s1) : ℚ) + 1) / 2 ≤
          ((l.countP (fun y => s1 < y) + l.countP (fun y => y = s1) : ℕ) : ℚ) := by
        have hcast : (1 : ℚ) ≤ (l.countP (fun y => y = s1) : ℚ) := by exact_mod_cast ht1
        push_cast
        linarith
      calc ⌊(l.countP (fun y => s1 < y) : ℚ) + ((l.countP (fun y => y = s1) : ℚ) + 1) / 2⌋ ≤
          ⌊((l.countP (fun y => s1 < y) + l.countP (fun y => y = s1) : ℕ) : ℚ)⌋ :=
            Int.floor_le_floor hle
        _ = _ := Int.floor_natCast _
    have hlo : ((l.countP (fun y => s2 < y) : ℕ) : ℤ) + 1 ≤
        ⌊(l.countP (fun y => s2 < y) : ℚ) + ((l.countP (fun y => y = s2) : ℚ) + 1) / 2⌋ := by
      apply Int.le_floor.mpr
      have hcast : (1 : ℚ) ≤ (l.countP (fun y => y = s2) : ℚ) := by exact_mod_cast ht2
      push_cast
      linarith
    have hcz : ((l.countP (fun y => s1 < y) + l.countP (fun y => y = s1) : ℕ) : ℤ) ≤
        ((l.countP (fun y => s2 < y) : ℕ) : ℤ) := by exact_mod_cast hc
    omega

theorem tpg_score_getD (d : List ℚ) (a : Bool) {i : ℕ} (hi : i < d.length) :
    (tpg_score d a).getD i none =
      if d.length = 1 ∧ ¬ 19995 ≤ d.getD i 0 then none
      else some (round2 (tpg_score_after_ties d a (d.getD i 0))) := by
  unfold tpg_score
  exact map_getD_of_lt _ d i none hi

theorem custom_tpg_score_getD (d : List ℚ) (world : ℚ) (fs : Option ℚ) (thr : ℚ) (a : Bool)
    {i : ℕ} (hi : i < d.length) :
    (custom_tpg_score d world fs thr a).getD i none =
      if d.length = 1 ∧ ¬ fivek_applies fs thr (d.getD i 0) then none
      else some (round2 (custom_value d world fs thr a (d.getD i 0))) := by
  unfold custom_tpg_score
  exact map_getD_of_lt _ d i none hi

/-! ## Claim theorems -/

/-- C1: in both combination policies (`tpg_score` and `custom_tpg_score`),
submissions with identical distance receive the same score and the same
rank (both the internal `method='min'` distance rank of `tpg_score` and
the score rank attached by `calc_scores`), and each such submission's
score is the rounded arithmetic mean of its tie group's computed
scores. -/
theorem C1_tie_resolution_and_symmetry (d : List ℚ) (world : ℚ) (fs : Option ℚ) (thr : ℚ)
    (a : Bool) (i j : ℕ) (hi : i < d.length) (hj : j < d.length) (hn : 2 ≤ d.length)
    (heq : d.getD i 0 = d.getD j 0) :
    (tpg_score d a).getD i none = (tpg_score d a).getD j none ∧
    (custom_tpg_score d world fs thr a).getD i none =
      (custom_tpg_score d world fs thr a).getD j none ∧
    rank_min d (d.getD i 0) = rank_min d (d.getD j 0) ∧
    calc_rank d world fs thr a (d.getD i 0) = calc_rank d world fs thr a (d.getD j 0) ∧
    (tpg_score d a).getD i none =
      some (round2 (list_mean ((tie_group d (d.getD i 0)).map (tpg_score_before_ties d a)))) ∧
    (custom_tpg_score d world fs thr a).getD i none =
      some (round2 (list_mean
        ((tie_group d (d.getD i 0)).map (custom_value d world fs thr a)))) := by
  have hne1 : d.length ≠ 1 := by omega
  refine ⟨?_, ?_, by rw [heq], by rw [heq], ?_, ?_⟩
  · rw [tpg_score_getD d a hi, tpg_score_getD d a hj, heq]
  · rw [custom_tpg_score_getD d world fs thr a hi, custom_tpg_score_getD d world fs thr a hj, heq]
  · rw [tpg_score_getD d a hi, if_neg (by simp [hne1])]
    rfl
  · rw [custom_tpg_score_getD d world fs thr a hi, if_neg (by simp [hne1])]
    rw [map_tie_group (custom_value d world fs thr a) d (d.getD i 0),
      list_mean_replicate (tie_group_length_pos (getD_mem_of_lt hi))]

/-- C1 witness: concrete tied round `[2, 2, 7]`. -/
theorem C1_witness :
    (tpg_score [2, 2, 7] false).getD 0 none = (tpg_score [2, 2, 7] false).getD 1 none ∧
    calc_rank [2, 2, 7] 5000 (some 7500) (1 / 10) false (([2, 2, 7] : List ℚ).getD 0 0) =
      calc_rank [2, 2, 7] 5000 (some 7500) (1 / 10) false (([2, 2, 7] : List ℚ).getD 1 0) :=
  ⟨(C1_tie_resolution_and_symmetry [2, 2, 7] 5000 (some 7500) (1 / 10) false 0 1 (by norm_num)
      (by norm_num) (by norm_num) (by norm_num)).1,
    (C1_tie_resolution_and_symmetry [2, 2, 7] 5000 (some 7500) (1 / 10) false 0 1 (by norm_num)
      (by norm_num) (by norm_num) (by norm_num)).2.2.2.1⟩

/-- C2 counterexample: a fully tied round of three submissions.
`calc_scores` assigns rank 2 to every member (pandas `method='average'`
rank of the descending scores, truncated to int), not the minimum rank 1
of the tied group that competition ranking would give. -/
theorem C2_counterexample :
    calc_rank [5, 5, 5] 5000 (some 7500) (1 / 10) false 5 = 2 ∧
    rank_min [5, 5, 5] 5 = 1 ∧ (2 : ℤ) ≠ 1 := by
  refine ⟨?_, by norm_num [rank_min], by norm_num⟩
  norm_num [calc_rank, rank_average_desc, calc_scores_values, custom_value, fivek_applies,
    custom_raw_score, custom_distance_score, players_beaten_score, players_beaten, rank_max,
    round2, Rat.floor]

/-- C2 amended: `calc_scores` ranks by descending score with pandas
`method='average'` truncated to int.  Tied distances share a rank and
ranks are non-decreasing in distance (away from the 5K override), and in
the concrete three-submission scenario with exactly two tied at the
minimal distance the tied pair receive rank 1 and the third rank 3 —
but a fully tied group need not receive the minimum rank of the group
(see the counterexample, where all three get rank 2). -/
theorem C2_amended (d : List ℚ) (world : ℚ) (fs : Option ℚ) (thr : ℚ) (a : Bool) (i j : ℕ)
    (hi : i < d.length) (hj : j < d.length) (hn : 2 ≤ d.length) :
    (d.getD i 0 = d.getD j 0 →
      calc_rank d world fs thr a (d.getD i 0) = calc_rank d world fs thr a (d.getD j 0)) ∧
    (d.getD i 0 < d.getD j 0 → fivek_applies fs thr (d.getD i 0) = false →
      fivek_applies fs thr (d.getD j 0) = false →
      calc_rank d world fs thr a (d.getD i 0) ≤ calc_rank d world fs thr a (d.getD j 0)) ∧
    [(1 : ℚ), 1, 2].map (calc_rank [1, 1, 2] 5000 (some 7500) (1 / 10) false) = [1, 1, 3] := by
  refine ⟨fun heq => by rw [heq], fun hlt hfi hfj => ?_, ?_⟩
  · unfold calc_rank
    apply rank_average_desc_antitone
    · exact List.mem_map.mpr ⟨_, getD_mem_of_lt hi, rfl⟩
    · exact List.mem_map.mpr ⟨_, getD_mem_of_lt hj, rfl⟩
    · apply round2_mono
      unfold custom_value
      rw [hfi, hfj]
      simp only [Bool.false_eq_true, if_false]
      exact custom_raw_antitone a hn (le_of_lt hlt)
  · norm_num [calc_rank, rank_average_desc, calc_scores_values, custom_value, fivek_applies,
      custom_raw_score, custom_distance_score, players_beaten_score, players_beaten, rank_max,
      round2, Rat.floor]

/-- C2 amended witness: tie at the top of `[1, 1, 2]` and
distance-ordering of ranks. -/
theorem C2_amended_witness :
    calc_rank [1, 1, 2] 5000 (some 7500) (1 / 10) false (([1, 1, 2] : List ℚ).getD 0 0) =
      calc_rank [1, 1, 2] 5000 (some 7500) (1 / 10) false (([1, 1, 2] : List ℚ).getD 1 0) ∧
    calc_rank [1, 1, 2] 5000 (some 7500) (1 / 10) false (([1, 1, 2] : List ℚ).getD 0 0) ≤
      calc_rank [1, 1, 2] 5000 (some 7500) (1 / 10) false (([1, 1, 2] : List ℚ).getD 2 0) :=
  ⟨(C2_amended [1, 1, 2] 5000 (some 7500) (1 / 10) false 0 1 (by norm_num) (by norm_num)
      (by norm_num)).1 (by norm_num),
    (C2_amended [1, 1, 2] 5000 (some 7500) (1 / 10) false 0 2 (by norm_num) (by norm_num)
      (by norm_num)).2.1 (by norm_num) (by norm_num [fivek_applies])
      (by norm_num [fivek_applies])⟩

/-- C3 counterexample: in the main-game ruleset, two earmarked 5K
submissions (distances 0 and 0.1, both within the inclusive threshold)
receive different scores (15000 and 9999.98), so `tpg_score` does not
overwrite an earmarked submission's score with a flat value. -/
theorem C3_counterexample :
    (0 : ℚ) ≤ 1 / 10 ∧ (1 / 10 : ℚ) ≤ 1 / 10 ∧
    tpg_score [0, 1 / 10] false = [some 15000, some (499999 / 50)] ∧
    (15000 : ℚ) ≠ 499999 / 50 := by
  refine ⟨by norm_num, by norm_num, ?_, by norm_num⟩
  norm_num [tpg_score, tpg_score_after_ties, tpg_score_before_ties, tie_group, list_mean,
    distance_score, players_beaten_score, players_beaten, rank_max, tpg_bonus, rank_min,
    round2, Rat.floor]

/-- C3 amended: the regional ruleset overwrites an earmarked
submission's score with the flat `fivek_score` (inclusive at the exact
threshold); the main-game ruleset instead gives distance ≤ 0.1 a flat
5000 *bonus* and only overwrites the score flat (with 5000) for
antipode submissions at distance ≥ 19995. -/
theorem C3_amended (d : List ℚ) (world thr fs : ℚ) (a : Bool) (i : ℕ) (hi : i < d.length) :
    (fs ≠ 0 → d.getD i 0 ≤ thr →
      (custom_tpg_score d world (some fs) thr a).getD i none = some (round2 fs)) ∧
    (fs ≠ 0 → fivek_applies (some fs) thr thr = true) ∧
    (19995 ≤ d.getD i 0 → (tpg_score d a).getD i none = some 5000) ∧
    (d.getD i 0 ≤ 1 / 10 → tpg_bonus d (d.getD i 0) = 5000) := by
  refine ⟨?_, ?_, ?_, ?_⟩
  · intro hfs hle
    have happ : fivek_applies (some fs) thr (d.getD i 0) = true := by
      unfold fivek_applies
      exact decide_eq_true ⟨hfs, hle⟩
    rw [custom_tpg_score_getD d world (some fs) thr a hi, if_neg (fun h => h.2 happ)]
    unfold custom_value
    rw [if_pos happ]
    rfl
  · intro hfs
    unfold fivek_applies
    exact decide_eq_true ⟨hfs, le_refl thr⟩
  · intro hanti
    rw [tpg_score_getD d a hi, if_neg (fun h => h.2 hanti)]
    unfold tpg_score_after_ties
    rw [map_tie_group (tpg_score_before_ties d a) d (d.getD i 0)]
    have hbefore : tpg_score_before_ties d a (d.getD i 0) = 5000 := by
      unfold tpg_score_before_ties
      rw [if_pos hanti]
    rw [hbefore, list_mean_replicate (tie_group_length_pos (getD_mem_of_lt hi)),
      round2_const_5000]
  · intro h5k
    unfold tpg_bonus
    rw [if_pos h5k]

/-- C3 amended witness: flat regional 5K at the inclusive boundary, flat
main-game antipode overwrite, and flat main-game 5K bonus. -/
theorem C3_amended_witness :
    (custom_tpg_score [1 / 10, 3] 5000 (some 7500) (1 / 10) false).getD 0 none =
      some (round2 7500) ∧
    (tpg_score [19999, 3] false).getD 0 none = some 5000 ∧
    tpg_bonus [1 / 20, 3] (([1 / 20, 3] : List ℚ).getD 0 0) = 5000 :=
  ⟨(C3_amended [1 / 10, 3] 5000 (1 / 10) 7500 false 0 (by norm_num)).1 (by norm_num)
      (by norm_num),
    (C3_amended [19999, 3] 5000 (1 / 10) 7500 false 0 (by norm_num)).2.2.1 (by norm_num),
    (C3_amended [1 / 20, 3] 5000 (1 / 10) 7500 false 0 (by norm_num)).2.2.2 (by norm_num)⟩

/-- C4: on a solo round (`N = 1`) both scoring functions evaluate
`players_beaten / (N - 1)` as `0.0 / 0.0`, which is NaN (`none`), so the
lone submission's score is undefined rather than the maximum proximity
component (the code raises no exception but emits NaN). -/
theorem C4_solo_round_nan :
    tpg_score [100] false = [none] ∧
    custom_tpg_score [100] 20000 (some 7500) (1 / 10) false = [none] := by
  constructor
  · norm_num [tpg_score]
  · norm_num [custom_tpg_score, fivek_applies]

/-- C8: the `_iter_scored_rounds` dict comprehension keyed by submission
name silently collapses duplicate players — the round is scored with
only the last submission of the duplicated name and no error is raised
(the source carries an unimplemented
`#TODO: Check that there are no duplicates`). -/
theorem C8_duplicate_players_overwritten :
    iter_round_submissions [("A", (3 : ℚ)), ("A", 7)] = [("A", 7)] ∧
    (iter_round_submissions [("A", (3 : ℚ)), ("A", 7)]).length = 1 := by
  constructor
  · norm_num [iter_round_submissions, dict_of_list, upsert]
  · norm_num [iter_round_submissions, dict_of_list, upsert]

/-- C9: in a scored round, away from the flat-score overrides (antipode
overwrite for the main game, 5K overwrite for the regional ruleset),
strictly smaller distance gives a score at least as large and a rank at
most as large, in both rulesets. -/
theorem C9_monotonicity (d : List ℚ) (world : ℚ) (fs : Option ℚ) (thr : ℚ) (a : Bool) (i j : ℕ)
    (hi : i < d.length) (hj : j < d.length) (hlt : d.getD i 0 < d.getD j 0)
    (hai : ¬ 19995 ≤ d.getD i 0) (haj : ¬ 19995 ≤ d.getD j 0)
    (hfi : fivek_applies fs thr (d.getD i 0) = false)
    (hfj : fivek_applies fs thr (d.getD j 0) = false) :
    (∃ si sj, (tpg_score d a).getD i none = some si ∧ (tpg_score d a).getD j none = some sj ∧
      sj ≤ si) ∧
    rank_min d (d.getD i 0) ≤ rank_min d (d.getD j 0) ∧
    (∃ ci cj, (custom_tpg_score d world fs thr a).getD i none = some ci ∧
      (custom_tpg_score d world fs thr a).getD j none = some cj ∧ cj ≤ ci) ∧
    calc_rank d world fs thr a (d.getD i 0) ≤ calc_rank d world fs thr a (d.getD j 0) := by
  have hij : i ≠ j := fun e => absurd hlt (by rw [e]; exact lt_irrefl _)
  have hn : 2 ≤ d.length := by omega
  have hne1 : d.length ≠ 1 := by omega
  have hxi : d.getD i 0 ∈ d := getD_mem_of_lt hi
  have hxj : d.getD j 0 ∈ d := getD_mem_of_lt hj
  have hcustom : custom_value d world fs thr a (d.getD j 0) ≤
      custom_value d world fs thr a (d.getD i 0) := by
    unfold custom_value
    rw [hfi, hfj]
    simp only [Bool.false_eq_true, if_false]
    exact custom_raw_antitone a hn (le_of_lt hlt)
  refine ⟨?_, rank_min_mono (le_of_lt hlt), ?_, ?_⟩
  · refine ⟨round2 (tpg_score_after_ties d a (d.getD i 0)),
      round2 (tpg_score_after_ties d a (d.getD j 0)), ?_, ?_, ?_⟩
    · rw [tpg_score_getD d a hi, if_neg (by simp [hne1])]
    · rw [tpg_score_getD d a hj, if_neg (by simp [hne1])]
    · apply round2_mono
      rw [after_ties_eq_before a hxi, after_ties_eq_before a hxj]
      exact tpg_before_antitone a hn (le_of_lt hlt) hai haj
  · refine ⟨round2 (custom_value d world fs thr a (d.getD i 0)),
      round2 (custom_value d world fs thr a (d.getD j 0)), ?_, ?_, ?_⟩
    · rw [custom_tpg_score_getD d world fs thr a hi, if_neg (by simp [hne1])]
    · rw [custom_tpg_score_getD d world fs thr a hj, if_neg (by simp [hne1])]
    · exact round2_mono hcustom
  · unfold calc_rank
    apply rank_average_desc_antitone
    · exact List.mem_map.mpr ⟨_, hxi, rfl⟩
    · exact List.mem_map.mpr ⟨_, hxj, rfl⟩
    · exact round2_mono hcustom

/-- C9 witness: the two-submission round `[1, 2]`. -/
theorem C9_monotonicity_witness :
    (∃ si sj, (tpg_score [1, 2] false).getD 0 none = some si ∧
      (tpg_score [1, 2] false).getD 1 none = some sj ∧ sj ≤ si) ∧
    rank_min [1, 2] (([1, 2] : List ℚ).getD 0 0) ≤ rank_min [1, 2] (([1, 2] : List ℚ).getD 1 0) ∧
    (∃ ci cj, (custom_tpg_score [1, 2] 20000 (some 7500) (1 / 10) false).getD 0 none = some ci ∧
      (custom_tpg_score [1, 2] 20000 (some 7500) (1 / 10) false).getD 1 none = some cj ∧
      cj ≤ ci) ∧
    calc_rank [1, 2] 20000 (some 7500) (1 / 10) false (([1, 2] : List ℚ).getD 0 0) ≤
      calc_rank [1, 2] 20000 (some 7500) (1 / 10) false (([1, 2] : List ℚ).getD 1 0) :=
  C9_monotonicity [1, 2] 20000 (some 7500) (1 / 10) false 0 1 (by norm_num) (by norm_num)
    (by norm_num) (by norm_num) (by norm_num) (by norm_num [fivek_applies])
    (by norm_num [fivek_applies])

/-- C10: the tie-resolution step of `tpg_score` preserves the sum of
scores within each tie group (it is in fact the identity, since tied
submissions already share a score), so the round's total score before
the final rounding is unchanged. -/
theorem C10_tie_sum_preserved (d : List ℚ) (a : Bool) (_hn : 2 ≤ d.length) :
    (∀ x ∈ d, ((tie_group d x).map (tpg_score_after_ties d a)).sum =
        ((tie_group d x).map (tpg_score_before_ties d a)).sum) ∧
    (d.map (tpg_score_after_ties d a)).sum = (d.map (tpg_score_before_ties d a)).sum := by
  constructor
  · intro x _hx
    have hcong : ∀ y ∈ tie_group d x,
        tpg_score_after_ties d a y = tpg_score_before_ties d a y :=
      fun y hy => after_ties_eq_before a (List.mem_of_mem_filter hy)
    rw [List.map_congr_left hcong]
  · have hcong : ∀ y ∈ d, tpg_score_after_ties d a y = tpg_score_before_ties d a y :=
      fun y hy => after_ties_eq_before a hy
    rw [List.map_congr_left hcong]

/-- C10 witness: the tied round `[1, 1, 3]`. -/
theorem C10_witness :
    (([1, 1, 3] : List ℚ).map (tpg_score_after_ties [1, 1, 3] false)).sum =
      (([1, 1, 3] : List ℚ).map (tpg_score_before_ties [1, 1, 3] false)).sum :=
  (C10_tie_sum_preserved [1, 1, 3] false (by norm_num)).2

/-! ## Leaderboard and medal lemmas -/

theorem mem_foldl_unique_keys (l : List String) (acc : List String) (x : String) :
    x ∈ l.foldl (fun acc p => if p ∈ acc then acc else acc ++ [p]) acc ↔ x ∈ acc ∨ x ∈ l := by
  induction l generalizing acc with
  | nil => simp
  | cons h t ih =>
    simp only [List.foldl_cons]
    by_cases hmem : h ∈ acc
    · rw [if_pos hmem, ih]
      constructor
      · rintro (hx | hx)
        · exact Or.inl hx
        · exact Or.inr (List.mem_cons_of_mem _ hx)
      · rintro (hx | hx)
        · exact Or.inl hx
        · rcases List.mem_cons.mp hx with rfl | hx
          · exact Or.inl hmem
          · exact Or.inr hx
    · rw [if_neg hmem, ih]
      constructor
      · rintro (hx | hx)
        · rcases List.mem_append.mp hx with hx | hx
          · exact Or.inl hx
          · have hxh : x = h := by simpa using hx
            exact Or.inr (hxh ▸ List.mem_cons_self h t)
        · exact Or.inr (List.mem_cons_of_mem _ hx)
      · rintro (hx | hx)
        · exact Or.inl (List.mem_append.mpr (Or.inl hx))
        · rcases List.mem_cons.mp hx with rfl | hx
          · exact Or.inl (List.mem_append.mpr (Or.inr (by simp)))
          · exact Or.inr hx

theorem mem_unique_keys {l : List String} {x : String} : x ∈ unique_keys l ↔ x ∈ l := by
  unfold unique_keys
  rw [mem_foldl_unique_keys]
  simp

theorem lookup_player_isSome {r : List (String × ℚ)} {p : String} :
    (lookup_player r p).isSome = true ↔ p ∈ r.map (fun e => e.1) := by
  induction r with
  | nil => simp [lookup_player]
  | cons e t ih =>
    simp only [lookup_player, List.map_cons, List.mem_cons]
    by_cases he : e.1 = p
    · simp [he]
    · rw [if_neg he, ih]
      constructor
      · exact fun h => Or.inr h
      · rintro (h | h)
        · exact absurd h.symm he
        · exact h

theorem mem_lb_players {rounds : List (List (String × ℚ))} {p : String} :
    p ∈ lb_players rounds ↔ ∃ r ∈ rounds, (lookup_player r p).isSome = true := by
  unfold lb_players
  rw [mem_unique_keys, List.mem_flatten]
  constructor
  · rintro ⟨l, hl, hp⟩
    obtain ⟨r, hr, rfl⟩ := List.mem_map.mp hl
    exact ⟨r, hr, lookup_player_isSome.mpr hp⟩
  · rintro ⟨r, hr, hp⟩
    exact ⟨r.map (fun e => e.1), List.mem_map.mpr ⟨r, hr, rfl⟩, lookup_player_isSome.mp hp⟩

theorem make_leaderboard_perm (rounds : List (List (String × ℚ))) (dropna ascending : Bool) :
    List.Perm (make_leaderboard rounds dropna ascending) (lb_rows rounds dropna) := by
  unfold make_leaderboard
  cases ascending
  · simp only [Bool.false_eq_true, if_false]
    exact List.perm_insertionSort total_desc _
  · simp only [if_true]
    exact List.perm_insertionSort total_asc _

theorem lb_rows_shape {rounds : List (List (String × ℚ))} {dropna : Bool} {p : String}
    {t avg : ℚ} (h : (p, t, avg) ∈ lb_rows rounds dropna) :
    t = lb_total rounds p ∧ avg = t / (rounds.length : ℚ) := by
  unfold lb_rows at h
  obtain ⟨q, _hq, heq⟩ := List.mem_map.mp h
  cases heq
  exact ⟨rfl, rfl⟩

theorem map_fst_make_leaderboard (rounds : List (List (String × ℚ)))
    (dropna ascending : Bool) (p : String) :
    p ∈ (make_leaderboard rounds dropna ascending).map (fun e => e.1) ↔
      p ∈ (if dropna then (lb_players rounds).filter (fun q => plays_all rounds q)
        else lb_players rounds) := by
  rw [((make_leaderboard_perm rounds dropna ascending).map (fun e => e.1)).mem_iff]
  unfold lb_rows
  rw [List.map_map]
  simp [Function.comp]

theorem medal_points_sum_decomp (l : List Medal) :
    medal_points_sum l = 3 * l.countP (fun m => m = .Gold) +
      2 * l.countP (fun m => m = .Silver) + l.countP (fun m => m = .Bronze) := by
  induction l with
  | nil => simp [medal_points_sum]
  | cons m t ih =>
    unfold medal_points_sum at ih ⊢
    simp only [List.map_cons, List.sum_cons, List.countP_cons]
    cases m <;> simp [Medal.points] <;> omega

/-- C5 counterexample: player `B` plays exactly one round (score 100);
the points leaderboard reports average 50 = 100 / (number of all
rounds), not the claimed 100 / (rounds played) = 100. -/
theorem C5_counterexample :
    make_leaderboard [[("A", 10), ("B", 100)], [("A", 20)]] false false =
      [("B", 100, 50), ("A", 30, 15)] ∧
    ([[("A", (10 : ℚ)), ("B", 100)], [("A", 20)]].countP
      (fun r => (lookup_player r "B").isSome)) = 1 ∧
    (100 : ℚ) / 1 ≠ 50 := by
  refine ⟨?_, ?_, by norm_num⟩
  · simp [make_leaderboard, lb_rows, lb_players, unique_keys, lb_total, lookup_player,
      List.filterMap_cons, List.insertionSort, List.orderedInsert, total_desc, List.foldl]
    norm_num
  · simp [lookup_player]

/-- C5 amended: the points leaderboard's total is the sum over the
rounds the player actually played (missing rounds contribute nothing),
but the average divides by the number of all rounds in the season (not
by the rounds played); rows cover exactly the players that appear in
some round and are sorted descending by total. -/
theorem C5_amended (rounds : List (List (String × ℚ))) :
    (∀ p t avg, (p, t, avg) ∈ make_leaderboard rounds false false →
      t = (rounds.filterMap (fun r => lookup_player r p)).sum ∧
      avg = t / (rounds.length : ℚ)) ∧
    (∀ p, p ∈ (make_leaderboard rounds false false).map (fun e => e.1) ↔
      ∃ r ∈ rounds, (lookup_player r p).isSome = true) ∧
    List.Sorted total_desc (make_leaderboard rounds false false) := by
  refine ⟨?_, ?_, ?_⟩
  · intro p t avg h
    exact lb_rows_shape ((make_leaderboard_perm rounds false false).mem_iff.mp h)
  · intro p
    rw [map_fst_make_leaderboard]
    simp only [Bool.false_eq_true, if_false]
    exact mem_lb_players
  · unfold make_leaderboard
    simp only [Bool.false_eq_true, if_false]
    exact List.sorted_insertionSort total_desc _

/-- C5 amended witness: player `B` of the two-round season. -/
theorem C5_amended_witness :
    (100 : ℚ) =
      ([[("A", 10), ("B", 100)], [("A", 20)]].filterMap (fun r => lookup_player r "B")).sum ∧
    (50 : ℚ) = 100 / (([[("A", (10 : ℚ)), ("B", 100)], [("A", 20)]].length : ℕ) : ℚ) :=
  (C5_amended [[("A", 10), ("B", 100)], [("A", 20)]]).1 "B" 100 50 (by
    have h : make_leaderboard [[("A", 10), ("B", 100)], [("A", 20)]] false false =
        [("B", 100, 50), ("A", 30, 15)] := by
      simp [make_leaderboard, lb_rows, lb_players, unique_keys, lb_total, lookup_player,
        List.filterMap_cons, List.insertionSort, List.orderedInsert, total_desc, List.foldl]
      norm_num
    rw [h]
    simp)

/-- C6 counterexample: player `B` plays round 1 (of 2) but `dropna()`
(default `how='any'`) removes every player with any missing round, so
`B` has no row in the distance leaderboard even though they played a
round. -/
theorem C6_counterexample :
    (lookup_player [("A", (1 : ℚ)), ("B", 2)] "B").isSome = true ∧
    "B" ∉ (make_leaderboard [[("A", 1), ("B", 2)], [("A", 3)]] true true).map
      (fun e => e.1) := by
  constructor
  · simp [lookup_player]
  · have h : make_leaderboard [[("A", 1), ("B", 2)], [("A", 3)]] true true = [("A", 4, 2)] := by
      simp [make_leaderboard, lb_rows, lb_players, unique_keys, lb_total, lookup_player,
        plays_all, List.filterMap_cons, List.insertionSort, List.orderedInsert, total_asc,
        List.foldl, List.filter]
      norm_num
    rw [h]
    simp

/-- C6 amended: the distance leaderboard keeps exactly the players
present in every round of the season (dropping anyone who missed even
one round, not only players missing from every round); kept rows carry
the sum of their distances and that sum divided by the number of
rounds, and rows are sorted ascending by total. -/
theorem C6_amended (rounds : List (List (String × ℚ))) :
    (∀ p t avg, (p, t, avg) ∈ make_leaderboard rounds true true →
      t = (rounds.filterMap (fun r => lookup_player r p)).sum ∧
      avg = t / (rounds.length : ℚ)) ∧
    (∀ p, p ∈ (make_leaderboard rounds true true).map (fun e => e.1) ↔
      ((∃ r ∈ rounds, (lookup_player r p).isSome = true) ∧
        ∀ r ∈ rounds, (lookup_player r p).isSome = true)) ∧
    List.Sorted total_asc (make_leaderboard rounds true true) := by
  refine ⟨?_, ?_, ?_⟩
  · intro p t avg h
    exact lb_rows_shape ((make_leaderboard_perm rounds true true).mem_iff.mp h)
  · intro p
    rw [map_fst_make_leaderboard]
    simp only [if_true]
    rw [List.mem_filter, mem_lb_players]
    constructor
    · rintro ⟨hmem, hall⟩
      exact ⟨hmem, fun r hr => List.all_eq_true.mp hall r hr⟩
    · rintro ⟨hmem, hall⟩
      exact ⟨hmem, List.all_eq_true.mpr fun r hr => hall r hr⟩
  · unfold make_leaderboard
    simp only [if_true]
    exact List.sorted_insertionSort total_asc _

/-- C6 amended witness: player `A` of the two-round season plays both
rounds and keeps a row. -/
theorem C6_amended_witness :
    (4 : ℚ) =
      ([[("A", 1), ("B", 2)], [("A", 3)]].filterMap (fun r => lookup_player r "A")).sum ∧
    (2 : ℚ) = 4 / (([[("A", (1 : ℚ)), ("B", 2)], [("A", 3)]].length : ℕ) : ℚ) :=
  (C6_amended [[("A", 1), ("B", 2)], [("A", 3)]]).1 "A" 4 2 (by
    have h : make_leaderboard [[("A", 1), ("B", 2)], [("A", 3)]] true true = [("A", 4, 2)] := by
      simp [make_leaderboard, lb_rows, lb_players, unique_keys, lb_total, lookup_player,
        plays_all, List.filterMap_cons, List.insertionSort, List.orderedInsert, total_asc,
        List.foldl, List.filter]
      norm_num
    rw [h]
    simp)

/-- C7: ranks 1/2/3 award Gold/Silver/Bronze (nothing past rank 3),
equal ranks award equal medals, the 2-way tie for first of the concrete
scenario awards two Golds and zero Silvers, every medal-leaderboard row
satisfies `MedalScore = 3·Gold + 2·Silver + 1·Bronze`, and rows are
sorted descending by MedalScore. -/
theorem C7_medal_leaderboard (medals : List (String × List Medal)) :
    medal_of_rank 1 = some Medal.Gold ∧ medal_of_rank 2 = some Medal.Silver ∧
    medal_of_rank 3 = some Medal.Bronze ∧ (∀ r : ℤ, 4 ≤ r → medal_of_rank r = none) ∧
    (∀ p g s b sc, (p, g, s, b, sc) ∈ count_medals medals → sc = 3 * g + 2 * s + b) ∧
    List.Sorted medal_score_desc (count_medals medals) ∧
    round_medals (["A", "B", "C"].zip
      ([(1 : ℚ), 1, 2].map (calc_rank [1, 1, 2] 5000 (some 7500) (1 / 10) false))) =
      [("A", Medal.Gold), ("B", Medal.Gold), ("C", Medal.Bronze)] ∧
    ([("A", Medal.Gold), ("B", Medal.Gold), ("C", Medal.Bronze)].countP
      (fun e => e.2 = Medal.Silver)) = 0 := by
  refine ⟨by norm_num [medal_of_rank], by norm_num [medal_of_rank],
    by norm_num [medal_of_rank], ?_, ?_, ?_, ?_, by decide⟩
  · intro r hr
    unfold medal_of_rank
    rw [if_neg (by omega)]
  · intro p g s b sc h
    have h2 := (List.perm_insertionSort medal_score_desc _).mem_iff.mp h
    obtain ⟨e, _he, heq⟩ := List.mem_map.mp h2
    cases heq
    exact medal_points_sum_decomp e.2
  · unfold count_medals
    exact List.sorted_insertionSort medal_score_desc _
  · norm_num [round_medals, medal_of_rank, calc_rank, rank_average_desc, calc_scores_values,
      custom_value, fivek_applies, custom_raw_score, custom_distance_score,
      players_beaten_score, players_beaten, rank_max, round2, Rat.floor, List.filterMap_cons]

/-- C7 witness: a two-player medal tally. -/
theorem C7_medal_witness :
    medal_of_rank 4 = none ∧ (4 : ℕ) = 3 * 1 + 2 * 0 + 1 :=
  ⟨(C7_medal_leaderboard [("A", [Medal.Gold, Medal.Bronze]), ("B", [Medal.Silver])]).2.2.2.1 4
      (by norm_num),
    (C7_medal_leaderboard [("A", [Medal.Gold, Medal.Bronze]), ("B", [Medal.Silver])]).2.2.2.2.1
      "A" 1 0 1 4 (by decide)⟩

end TPG
